import Mathlib

/-!
Verification development for the credit-castor calculation and timeline
engine.  The repository itself ships only browser-driven test scripts
(`verify_sync.py`, `test_firestore_sync.py`, `test_portage_reactive_recalc.py`,
`tests/uat/timeline_uat.py`); the calculation engine they exercise is not in
the repository, so the engine definitions below are modelled from the
specification text, while the log-analysis and UAT bookkeeping are embedded
directly from the Python sources.  Money is represented in integer minor
units (cents); exact rational intermediate values are represented as integer
numerator/denominator pairs, with bridging lemmas relating the integer
implementation to the real-valued formulas of the specification.
-/

/-- Calendar date, compared lexicographically (year, month, day). -/
structure Date where
  year : Nat
  month : Nat
  day : Nat
deriving DecidableEq, Repr

/-- Strict lexicographic order on dates. -/
def Date.lt (a b : Date) : Bool :=
  a.year < b.year ||
  (a.year = b.year && (a.month < b.month ||
    (a.month = b.month && a.day < b.day)))

/-- Reflexive lexicographic order on dates. -/
def Date.le (a b : Date) : Bool :=
  Date.lt a b || a = b

theorem Date.le_iff_not_lt (a b : Date) :
    Date.le a b = true ↔ Date.lt b a = false := by
  cases a; cases b
  simp [Date.le, Date.lt, Date.mk.injEq]
  omega

theorem Date.lt_irrefl (a : Date) : Date.lt a a = false := by
  cases a; simp [Date.lt]

theorem Date.le_refl (a : Date) : Date.le a a = true := by
  simp [Date.le]

theorem Date.lt_asymm {a b : Date} (h : Date.lt a b = true) :
    Date.lt b a = false := by
  cases a; cases b
  simp [Date.lt] at h ⊢
  omega

/-- Round-half-to-even ("bankers") rounding of the exact fraction `a / b`
for a positive denominator `b`, computed with integer arithmetic:
`q` is the floor and `r` the nonnegative remainder; the midpoint
`2 * r = b` resolves to the even neighbour. -/
def roundHalfEvenDiv (a b : ℤ) : ℤ :=
  if 2 * (a % b) < b then a / b
  else if b < 2 * (a % b) then a / b + 1
  else if (a / b) % 2 = 0 then a / b else a / b + 1

/-- Round-half-to-even rounding of a rational number, as the specification
states it: take the floor, then compare the fractional part with `1 / 2`,
sending an exact half to the even neighbour. -/
def roundHalfEvenQ (x : ℚ) : ℤ :=
  if x - (⌊x⌋ : ℚ) < 1 / 2 then ⌊x⌋
  else if 1 / 2 < x - (⌊x⌋ : ℚ) then ⌊x⌋ + 1
  else if ⌊x⌋ % 2 = 0 then ⌊x⌋ else ⌊x⌋ + 1

theorem floorQ_intCast_div (a b : ℤ) (hb : 0 < b) :
    ⌊(a : ℚ) / (b : ℚ)⌋ = a / b := by
  have hbq : (0 : ℚ) < (b : ℚ) := by exact_mod_cast hb
  have hdecomp : (a : ℚ) = (b : ℚ) * ((a / b : ℤ) : ℚ) + ((a % b : ℤ) : ℚ) := by
    exact_mod_cast (Int.ediv_add_emod a b).symm
  have hr0 : (0 : ℚ) ≤ ((a % b : ℤ) : ℚ) := by
    exact_mod_cast Int.emod_nonneg a (ne_of_gt hb)
  have hrb : ((a % b : ℤ) : ℚ) < (b : ℚ) := by
    exact_mod_cast Int.emod_lt_of_pos a hb
  rw [Int.floor_eq_iff]
  constructor
  · rw [le_div_iff₀ hbq, hdecomp]
    nlinarith
  · rw [div_lt_iff₀ hbq, hdecomp]
    nlinarith

theorem fracQ_intCast_div (a b : ℤ) (hb : 0 < b) :
    (a : ℚ) / (b : ℚ) - ((a / b : ℤ) : ℚ) = ((a % b : ℤ) : ℚ) / (b : ℚ) := by
  have hbq : (0 : ℚ) < (b : ℚ) := by exact_mod_cast hb
  have hdecomp : (a : ℚ) = (b : ℚ) * ((a / b : ℤ) : ℚ) + ((a % b : ℤ) : ℚ) := by
    exact_mod_cast (Int.ediv_add_emod a b).symm
  field_simp
  linarith [hdecomp]

/-- The integer implementation of half-even rounding agrees with the
rational-valued formulation for every positive denominator. -/
theorem roundHalfEvenDiv_eq (a b : ℤ) (hb : 0 < b) :
    roundHalfEvenDiv a b = roundHalfEvenQ ((a : ℚ) / (b : ℚ)) := by
  have hbq : (0 : ℚ) < (b : ℚ) := by exact_mod_cast hb
  have hfloor : ⌊(a : ℚ) / (b : ℚ)⌋ = a / b := floorQ_intCast_div a b hb
  have hfrac : (a : ℚ) / (b : ℚ) - ((a / b : ℤ) : ℚ) = ((a % b : ℤ) : ℚ) / (b : ℚ) :=
    fracQ_intCast_div a b hb
  have hlt : (((a % b : ℤ) : ℚ) / (b : ℚ) < 1 / 2) ↔ (2 * (a % b) < b) := by
    rw [div_lt_div_iff₀ hbq (by norm_num : (0 : ℚ) < 2), one_mul, mul_comm]
    exact_mod_cast Iff.rfl
  have hgt : (1 / 2 < ((a % b : ℤ) : ℚ) / (b : ℚ)) ↔ (b < 2 * (a % b)) := by
    rw [div_lt_div_iff₀ (by norm_num : (0 : ℚ) < 2) hbq, one_mul, mul_comm]
    exact_mod_cast Iff.rfl
  unfold roundHalfEvenDiv roundHalfEvenQ
  rw [hfloor, hfrac]
  by_cases h1 : 2 * (a % b) < b
  · rw [if_pos (hlt.mpr h1), if_pos h1]
  · rw [if_neg (fun hc => h1 (hlt.mp hc)), if_neg h1]
    by_cases h2 : b < 2 * (a % b)
    · rw [if_pos (hgt.mpr h2), if_pos h2]
    · rw [if_neg (fun hc => h2 (hgt.mp hc)), if_neg h2]

theorem roundHalfEvenQ_intCast (n : ℤ) : roundHalfEvenQ ((n : ℚ)) = n := by
  unfold roundHalfEvenQ
  rw [Int.floor_intCast]
  norm_num

theorem roundHalfEvenDiv_one (a : ℤ) : roundHalfEvenDiv a 1 = a := by
  unfold roundHalfEvenDiv
  norm_num

/-- Modelled from the spec: the seller of a lot is either a specific founder
participant or the co-ownership entity, mutually exclusive (spec section 3,
"Lot"); the calculation engine holding this type is absent from the
repository. -/
inductive Seller where
  | founder (name : String)
  | coOwnershipEntity
deriving DecidableEq, Repr

/-- Modelled from the spec: a lot has an identity, a base price (integer
minor units), a seller reference and, for co-ownership lots, an optional
unit price per surface area (spec section 3, "Lot"); the engine is absent
from the repository. -/
structure Lot where
  id : Nat
  basePrice : ℤ
  seller : Seller
  unitPrice : Option ℤ
deriving DecidableEq, Repr

/-- Modelled from the spec: a participant has a name, entry date, capital
contributed, founder flag and purchase details (lot reference, chosen
surface area if applicable) (spec section 3, "Participant"); the engine is
absent from the repository. -/
structure Participant where
  name : String
  entryDate : Date
  capital : ℤ
  isFounder : Bool
  lotId : Nat
  chosenSurface : Option ℤ
deriving DecidableEq, Repr

/-- Modelled from the spec: the portage formula configuration holds the base
indexation rate per period (an exact fraction `rateNum / rateDen`) and the
reference date (spec section 3, "PortageFormula"); the engine is absent
from the repository. -/
structure PortageFormula where
  rateNum : ℤ
  rateDen : ℤ
  referenceDate : Date
deriving DecidableEq, Repr

/-- Modelled from the spec: result of the Portage Pricing Calculator: the
computed price, the elapsed-time used and the formula snapshot at
computation time (spec section 3, "PricedTransaction"), extended with the
participant identity, transaction date and insertion index that the
Timeline Snapshot Engine keys on (spec section 3, "TimelineSnapshot");
the engine is absent from the repository. -/
structure PricedTransaction where
  participant : String
  idx : Nat
  date : Date
  price : ℤ
  elapsed : Nat
  formulaSnapshot : PortageFormula
deriving DecidableEq, Repr

/-- Modelled from the spec: pricing failures (spec section 7). -/
inductive PricingError where
  | invalidDateOrdering
  | invalidSurface
deriving DecidableEq, Repr

/-- Modelled from the spec: the whole-period count between the reference
date and the entry date.  The spec leaves the period length implicit but
fixes it through Scenario A (section 8): reference 2026-02-01 and entry
2028-01-01 count as 2 whole periods, so a period is a calendar year counted
by year-number difference; the count is integral, so the truncate-toward-
zero policy for partial periods (section 4.1) is vacuous here.  The engine
is absent from the repository. -/
def elapsedPeriods (ref entry : Date) : Nat :=
  entry.year - ref.year

/-- Modelled from the spec: the exact pre-rounding price numerator for a
base-priced lot is `basePrice * (rateDen + rateNum) ^ elapsed` over the
denominator `rateDen ^ elapsed`, which is `basePrice * (1 + rate) ^ elapsed`
as an exact fraction (spec section 4.1). -/
def basePriceRaw (base : ℤ) (f : PortageFormula) (elapsed : Nat) : ℤ :=
  base * (f.rateDen + f.rateNum) ^ elapsed

/-- Modelled from the spec: Portage Pricing Calculator,
`price(lot, participant, formula) -> PricedTransaction` (spec section 4.1).
Checks the date-ordering constraint first and signals
`InvalidDateOrderingError` when the entry date precedes the reference date;
for a surface-priced lot (one carrying a unit price) it requires a positive
chosen surface, signalling `InvalidSurfaceError` otherwise, and prices
`unitPrice * chosenSurface * (1 + rate) ^ elapsed`; otherwise it prices
`basePrice * (1 + rate) ^ elapsed`; the result is rounded to the currency
minor unit with round-half-to-even.  Pure function; the engine is absent
from the repository. -/
def price (lot : Lot) (p : Participant) (f : PortageFormula) :
    Except PricingError PricedTransaction :=
  if Date.lt p.entryDate f.referenceDate then
    .error .invalidDateOrdering
  else
    match lot.unitPrice with
    | some u =>
      match p.chosenSurface with
      | none => .error .invalidSurface
      | some s =>
        if s ≤ 0 then .error .invalidSurface
        else
          .ok { participant := p.name, idx := 0, date := p.entryDate,
                price := roundHalfEvenDiv
                  (basePriceRaw (u * s) f (elapsedPeriods f.referenceDate p.entryDate))
                  (f.rateDen ^ elapsedPeriods f.referenceDate p.entryDate),
                elapsed := elapsedPeriods f.referenceDate p.entryDate,
                formulaSnapshot := f }
    | none =>
      .ok { participant := p.name, idx := 0, date := p.entryDate,
            price := roundHalfEvenDiv
              (basePriceRaw lot.basePrice f (elapsedPeriods f.referenceDate p.entryDate))
              (f.rateDen ^ elapsedPeriods f.referenceDate p.entryDate),
            elapsed := elapsedPeriods f.referenceDate p.entryDate,
            formulaSnapshot := f }

/-- The exact fraction priced by the implementation equals the rational
spec formula `x * (1 + rateNum / rateDen) ^ elapsed` for any positive rate
denominator. -/
theorem priceRaw_cast (x : ℤ) (f : PortageFormula) (e : Nat)
    (hrd : 0 < f.rateDen) :
    ((basePriceRaw x f e : ℤ) : ℚ) / ((f.rateDen ^ e : ℤ) : ℚ) =
      (x : ℚ) * (1 + (f.rateNum : ℚ) / (f.rateDen : ℚ)) ^ e := by
  have hrd0 : ((f.rateDen : ℤ) : ℚ) ≠ 0 := by
    exact_mod_cast ne_of_gt hrd
  have hone : (1 : ℚ) + (f.rateNum : ℚ) / (f.rateDen : ℚ) =
      ((f.rateDen + f.rateNum : ℤ) : ℚ) / ((f.rateDen : ℤ) : ℚ) := by
    push_cast
    field_simp
  rw [hone, div_pow, basePriceRaw]
  push_cast
  field_simp

/-- Modelled from the spec: the reserve ratio, an exact fraction
`num / den` in `[0, 1]` (spec section 4.2); kept as an integer pair so all
distributor arithmetic is exact. -/
structure ReserveRate where
  num : ℤ
  den : ℤ
deriving DecidableEq, Repr

/-- Modelled from the spec: a sale transaction carries the lot being sold,
the total proceeds (minor units) and the sale date (spec section 4.2);
the engine is absent from the repository. -/
structure SaleTransaction where
  lot : Lot
  proceeds : ℤ
  saleDate : Date
deriving DecidableEq, Repr

/-- Modelled from the spec: one (participant, share-amount) pair of a
proceeds redistribution (spec section 3, "ProceedsBreakdown"). -/
structure ShareEntry where
  participant : Participant
  amount : ℤ
deriving DecidableEq, Repr

/-- Modelled from the spec: total proceeds, reserve, redistributed amount
and per-participant shares of a co-ownership sale (spec section 3,
"ProceedsBreakdown"); the engine is absent from the repository. -/
structure ProceedsBreakdown where
  total : ℤ
  reserve : ℤ
  redistributedTotal : ℤ
  shares : List ShareEntry
deriving DecidableEq, Repr

/-- Modelled from the spec: distributor failures (spec sections 4.2, 7). -/
inductive DistError where
  | notApplicable
  | insufficientCapitalData
deriving DecidableEq, Repr

/-- Modelled from the spec: remainder-assignment priority: larger capital
(hence larger proportional share) first, ties broken by earlier entry date
(spec sections 3 and 9 word the rule as largest-share-first with the
earliest-entry-date tie-break; section 4.2 words it as largest fractional
remainder first — the spec is internally inconsistent and the
largest-share-first wording, used twice, is adopted).  Returns true when
`p` is served no later than `q`. -/
def shareBefore (p q : Participant) : Bool :=
  q.capital < p.capital ||
  (p.capital = q.capital && Date.le p.entryDate q.entryDate)

/-- Insert a participant into a list sorted by `shareBefore`. -/
def insertShare (p : Participant) : List Participant → List Participant
  | [] => [p]
  | q :: rest =>
    if shareBefore p q then p :: q :: rest else q :: insertShare p rest

/-- Insertion sort of the existing participants by remainder-assignment
priority. -/
def sortShares : List Participant → List Participant
  | [] => []
  | p :: rest => insertShare p (sortShares rest)

/-- Modelled from the spec: hand the first `k` participants of the
priority-ordered list one extra minor unit on top of their floored base
share (spec section 4.2). -/
def assignExtras : Nat → List (Participant × ℤ) → List ShareEntry
  | _, [] => []
  | 0, (p, b) :: rest => { participant := p, amount := b } :: assignExtras 0 rest
  | k + 1, (p, b) :: rest =>
    { participant := p, amount := b + 1 } :: assignExtras k rest

/-- Modelled from the spec: per-participant shares of the redistributed
amount `redis`: each share is `redis * capital / C` rounded down (`C` the
total capital of the existing participants), and the rounding remainder is
assigned one minor unit at a time in `shareBefore` priority order (spec
section 4.2). -/
def mkShares (redis C : ℤ) (existing : List Participant) : List ShareEntry :=
  assignExtras
    (redis - ((sortShares existing).map (fun p => redis * p.capital / C)).sum).toNat
    ((sortShares existing).map (fun p => (p, redis * p.capital / C)))

/-- Modelled from the spec: Copro Proceeds Distributor,
`distribute(saleTransaction, reserveRatio, existingParticipants)` (spec
section 4.2).  Signals `NotApplicableError` unless the lot seller is the
co-ownership entity; when the existing-participant set is empty the entire
proceeds accrue to the reserve (documented fallback); otherwise the reserve
is `total * reserveRatio` rounded down to the minor unit, the redistributed
amount is the exact complement `total - reserve`, and the shares are
proportional with the rounding remainder assigned deterministically.
Signals `InsufficientCapitalDataError` when redistribution is attempted
with no positive historical capital.  The engine is absent from the
repository. -/
def distribute (sale : SaleTransaction) (ratio : ReserveRate)
    (existing : List Participant) : Except DistError ProceedsBreakdown :=
  if sale.lot.seller = Seller.coOwnershipEntity then
    match existing with
    | [] =>
      .ok { total := sale.proceeds, reserve := sale.proceeds,
            redistributedTotal := 0, shares := [] }
    | _ :: _ =>
      if (existing.map (fun p => p.capital)).sum ≤ 0 then
        .error .insufficientCapitalData
      else
        .ok { total := sale.proceeds,
              reserve := sale.proceeds * ratio.num / ratio.den,
              redistributedTotal :=
                sale.proceeds - sale.proceeds * ratio.num / ratio.den,
              shares :=
                mkShares (sale.proceeds - sale.proceeds * ratio.num / ratio.den)
                  ((existing.map (fun p => p.capital)).sum) existing }
  else
    .error .notApplicable

theorem map_sum_add (l : List α) (f g : α → ℤ) :
    (l.map (fun x => f x + g x)).sum = (l.map f).sum + (l.map g).sum := by
  induction l with
  | nil => simp
  | cons h t ih => simp [ih]; ring

theorem map_sum_mulL (l : List α) (c : ℤ) (f : α → ℤ) :
    (l.map (fun x => c * f x)).sum = c * (l.map f).sum := by
  induction l with
  | nil => simp
  | cons h t ih => simp [ih]; ring

theorem insertShare_map_sum (f : Participant → ℤ) (p : Participant)
    (l : List Participant) :
    ((insertShare p l).map f).sum = f p + (l.map f).sum := by
  induction l with
  | nil => simp [insertShare]
  | cons q rest ih =>
    by_cases h : shareBefore p q = true
    · simp [insertShare, h]
    · simp [insertShare, h, ih]
      ring

theorem sortShares_map_sum (f : Participant → ℤ) (l : List Participant) :
    ((sortShares l).map f).sum = (l.map f).sum := by
  induction l with
  | nil => rfl
  | cons p rest ih => simp [sortShares, insertShare_map_sum, ih]

theorem insertShare_length (p : Participant) (l : List Participant) :
    (insertShare p l).length = l.length + 1 := by
  induction l with
  | nil => rfl
  | cons q rest ih =>
    by_cases h : shareBefore p q = true
    · simp [insertShare, h]
    · simp [insertShare, h, ih]

theorem sortShares_length (l : List Participant) :
    (sortShares l).length = l.length := by
  induction l with
  | nil => rfl
  | cons p rest ih => simp [sortShares, insertShare_length, ih]

theorem insertShare_mem {q p : Participant} {l : List Participant}
    (h : q ∈ insertShare p l) : q = p ∨ q ∈ l := by
  induction l with
  | nil => simpa [insertShare] using h
  | cons r rest ih =>
    by_cases hb : shareBefore p r = true
    · simp [insertShare, hb] at h
      rcases h with h | h | h
      · exact Or.inl h
      · exact Or.inr (by simp [h])
      · exact Or.inr (by simp [h])
    · simp [insertShare, hb] at h
      rcases h with h | h
      · exact Or.inr (by simp [h])
      · rcases ih h with h2 | h2
        · exact Or.inl h2
        · exact Or.inr (by simp [h2])

theorem sortShares_mem {q : Participant} {l : List Participant}
    (h : q ∈ sortShares l) : q ∈ l := by
  induction l with
  | nil => simp [sortShares] at h
  | cons p rest ih =>
    rcases insertShare_mem h with h2 | h2
    · simp [h2]
    · simp [ih h2]

theorem assignExtras_amount_sum (k : Nat) (l : List (Participant × ℤ)) :
    ((assignExtras k l).map (fun e => e.amount)).sum =
      (l.map (fun pb => pb.2)).sum + (min k l.length : ℤ) := by
  induction l generalizing k with
  | nil => simp [assignExtras]
  | cons pb rest ih =>
    cases k with
    | zero =>
      simp [assignExtras, ih 0]
      omega
    | succ k =>
      simp [assignExtras, ih k]
      ring_nf
      omega

theorem assignExtras_mem {e : ShareEntry} {k : Nat} {l : List (Participant × ℤ)}
    (h : e ∈ assignExtras k l) :
    ∃ pb ∈ l, e.participant = pb.1 ∧ (e.amount = pb.2 ∨ e.amount = pb.2 + 1) := by
  induction l generalizing k with
  | nil => simp [assignExtras] at h
  | cons pb rest ih =>
    cases k with
    | zero =>
      simp [assignExtras] at h
      rcases h with h | h
      · exact ⟨pb, by simp, by simp [h]⟩
      · obtain ⟨qb, hq, he⟩ := ih h
        exact ⟨qb, by simp [hq], he⟩
    | succ k =>
      simp [assignExtras] at h
      rcases h with h | h
      · exact ⟨pb, by simp, by simp [h]⟩
      · obtain ⟨qb, hq, he⟩ := ih h
        exact ⟨qb, by simp [hq], he⟩

theorem mkShares_leftover_bounds (redis C : ℤ) (existing : List Participant)
    (hC : 0 < C) (hsum : (existing.map (fun p => p.capital)).sum = C)
    (hne : existing ≠ []) :
    0 ≤ redis - ((sortShares existing).map (fun p => redis * p.capital / C)).sum ∧
    redis - ((sortShares existing).map (fun p => redis * p.capital / C)).sum <
      (existing.length : ℤ) := by
  set l := sortShares existing with hl
  have hlen : l.length = existing.length := sortShares_length existing
  have hlenpos : 1 ≤ existing.length := by
    cases existing with
    | nil => exact absurd rfl hne
    | cons a b => simp
  have hcap : (l.map (fun p => p.capital)).sum = C := by
    rw [hl, sortShares_map_sum]; exact hsum
  have hdecomp : (l.map (fun p => redis * p.capital)).sum =
      (l.map (fun p => C * (redis * p.capital / C))).sum +
      (l.map (fun p => redis * p.capital % C)).sum := by
    rw [← map_sum_add]
    refine congrArg List.sum (List.map_congr_left ?_)
    intro p _
    exact (Int.ediv_add_emod (redis * p.capital) C).symm
  have htot : (l.map (fun p => redis * p.capital)).sum = redis * C := by
    rw [map_sum_mulL, hcap]
  have hfloorC : (l.map (fun p => C * (redis * p.capital / C))).sum =
      C * (l.map (fun p => redis * p.capital / C)).sum := map_sum_mulL l C _
  have hmod0 : 0 ≤ (l.map (fun p => redis * p.capital % C)).sum := by
    apply List.sum_nonneg
    intro x hx
    obtain ⟨p, _, hp⟩ := List.mem_map.mp hx
    rw [← hp]
    exact Int.emod_nonneg _ (ne_of_gt hC)
  have hmodUp : (l.map (fun p => redis * p.capital % C)).sum ≤
      (l.length : ℤ) * (C - 1) := by
    have hb : ∀ x ∈ l.map (fun p => redis * p.capital % C), x ≤ C - 1 := by
      intro x hx
      obtain ⟨p, _, hp⟩ := List.mem_map.mp hx
      rw [← hp]
      have := Int.emod_lt_of_pos (redis * p.capital) hC
      omega
    have := List.sum_le_card_nsmul (l.map (fun p => redis * p.capital % C)) (C - 1) hb
    simpa [nsmul_eq_mul] using this
  have key : C * (redis - (l.map (fun p => redis * p.capital / C)).sum) =
      (l.map (fun p => redis * p.capital % C)).sum := by
    have h1 := hdecomp
    rw [htot, hfloorC] at h1
    linarith
  rw [hlen] at hmodUp
  constructor
  · nlinarith [key, hmod0]
  · nlinarith [key, hmodUp, hlenpos]

theorem mkShares_sum (redis C : ℤ) (existing : List Participant)
    (hC : 0 < C) (hsum : (existing.map (fun p => p.capital)).sum = C)
    (hne : existing ≠ []) :
    ((mkShares redis C existing).map (fun e => e.amount)).sum = redis := by
  obtain ⟨h0, hlt⟩ := mkShares_leftover_bounds redis C existing hC hsum hne
  unfold mkShares
  rw [assignExtras_amount_sum]
  have hmm : ((sortShares existing).map
      (fun p => (p, redis * p.capital / C))).map (fun pb => pb.2) =
      (sortShares existing).map (fun p => redis * p.capital / C) := by
    rw [List.map_map]
    rfl
  rw [hmm]
  have hlenmap : ((sortShares existing).map
      (fun p => (p, redis * p.capital / C))).length = existing.length := by
    rw [List.length_map, sortShares_length]
  rw [hlenmap]
  set S := ((sortShares existing).map (fun p => redis * p.capital / C)).sum with hS
  omega

/-- Modelled from the spec: total order on transactions used by the
Timeline Snapshot Engine: transaction date first, then insertion order as
the stable tie-break for same-date events (spec section 3,
"TimelineSnapshot").  Returns true when `a` is positioned no later than
`b`. -/
def keyLE (a b : PricedTransaction) : Bool :=
  Date.lt a.date b.date || (a.date = b.date && a.idx ≤ b.idx)

/-- Insert a transaction into a list sorted by `keyLE`. -/
def insertTx (t : PricedTransaction) :
    List PricedTransaction → List PricedTransaction
  | [] => [t]
  | u :: rest => if keyLE t u then t :: u :: rest else u :: insertTx t rest

/-- Insertion sort of the ledger by `keyLE`. -/
def sortTxs : List PricedTransaction → List PricedTransaction
  | [] => []
  | t :: rest => insertTx t (sortTxs rest)

/-- Modelled from the spec: a time-stamped view of the cumulative cash
position and cap-table state immediately after one transaction (spec
section 3, "TimelineSnapshot"); the engine is absent from the
repository. -/
structure TimelineSnapshot where
  date : Date
  cumulativeCash : ℤ
  capTable : List PricedTransaction
deriving DecidableEq, Repr

/-- Modelled from the spec: the snapshot associated with transaction `t`:
its cumulative totals are the sum of all transaction deltas positioned no
later than `t` in the (date, insertion-order) ordering, which is the
guarantee clause of spec section 4.4 and is equivalent to folding the
deltas in chronological order. -/
def snapshotFor (txs : List PricedTransaction) (t : PricedTransaction) :
    TimelineSnapshot :=
  { date := t.date,
    cumulativeCash := ((txs.filter (fun u => keyLE u t)).map (fun u => u.price)).sum,
    capTable := txs.filter (fun u => keyLE u t) }

/-- Modelled from the spec: the full snapshot sequence: one snapshot per
transaction, ordered by transaction date with the stable same-date
tie-break (spec section 4.4); the engine is absent from the repository. -/
def timeline (txs : List PricedTransaction) : List TimelineSnapshot :=
  (sortTxs txs).map (snapshotFor txs)

/-- Modelled from the spec: failures of the ledger-building pass (a
participant referencing an unknown lot, or a pricing failure, spec
section 7). -/
inductive LedgerError where
  | missingLot (lotId : Nat)
  | pricing (e : PricingError)
deriving DecidableEq, Repr

/-- Look a lot up by identity in the registry. -/
def lookupLot (lots : List Lot) (id : Nat) : Option Lot :=
  lots.find? (fun l => l.id == id)

/-- Price the purchase of participant `p` (insertion index `i`) against the
registry and formula. -/
def priceAt (lots : List Lot) (f : PortageFormula) (i : Nat)
    (p : Participant) : Except LedgerError PricedTransaction :=
  match lookupLot lots p.lotId with
  | none => .error (.missingLot p.lotId)
  | some lot =>
    match price lot p f with
    | .error e => .error (.pricing e)
    | .ok t => .ok { t with idx := i }

/-- Modelled from the spec: build the transaction ledger by pricing every
participant's purchase, keeping insertion order as indices from `i`
upward; the first failure aborts the pass (spec sections 2 and 4.4); the
engine is absent from the repository. -/
def mkTxsFrom (lots : List Lot) (f : PortageFormula) :
    Nat → List Participant → Except LedgerError (List PricedTransaction)
  | _, [] => .ok []
  | i, p :: rest =>
    match priceAt lots f i p with
    | .error e => .error e
    | .ok t =>
      match mkTxsFrom lots f (i + 1) rest with
      | .error e => .error e
      | .ok ts => .ok (t :: ts)

/-- The ledger of an input set: participants priced in insertion order. -/
def mkLedger (lots : List Lot) (f : PortageFormula)
    (ps : List Participant) : Except LedgerError (List PricedTransaction) :=
  mkTxsFrom lots f 0 ps

/-- Modelled from the spec: the committed input set,
`(participants, lots, formula, reserveRatio)` (spec section 6). -/
structure Inputs where
  participants : List Participant
  lots : List Lot
  formula : PortageFormula
  reserveRatio : ReserveRate
deriving DecidableEq, Repr

/-- Modelled from the spec: the engine state: current committed input set
plus the derived snapshot sequence (spec sections 5 and 6). -/
structure EngineState where
  inputs : Inputs
  snapshots : List TimelineSnapshot
deriving DecidableEq, Repr

/-- Modelled from the spec: `commitInputs` replaces the input set, runs one
recompute pass and returns the new snapshot sequence or a structured error
(spec section 6); the previous state is replaced wholesale, never patched.
The engine is absent from the repository. -/
def commitInputs (_st : EngineState) (inp : Inputs) :
    Except LedgerError EngineState :=
  match mkLedger inp.lots inp.formula inp.participants with
  | .error e => .error e
  | .ok txs => .ok { inputs := inp, snapshots := timeline txs }

/-- Check whether `pat` occurs at the head of `t` (character-wise). -/
def leadsWith : List Char → List Char → Bool
  | [], _ => true
  | _ :: _, [] => false
  | a :: as, b :: bs => a = b && leadsWith as bs

/-- Substring occurrence over character lists, the semantics of the Python
`in` operator on strings used by `verify_sync`. -/
def hasSubList (pat : List Char) : List Char → Bool
  | [] => pat.isEmpty
  | c :: rest => leadsWith pat (c :: rest) || hasSubList pat rest

/-- Substring occurrence on strings. -/
def hasSub (pat s : String) : Bool :=
  hasSubList pat.data s.data

/-- Embedded from src/verify_sync.py lines 43-49: the seven evidence flags
accumulated over the captured console logs (initial values: six `False`
detections and `no_unlock_warning = True`). -/
structure SyncFlags where
  unlock_state_logged : Bool
  unlocked_by_null : Bool
  firestore_enabled : Bool
  data_loaded : Bool
  auto_save_triggered : Bool
  save_succeeded : Bool
  no_unlock_warning : Bool
deriving DecidableEq, Repr

/-- Embedded from src/verify_sync.py lines 43-49. -/
def initSyncFlags : SyncFlags :=
  { unlock_state_logged := false, unlocked_by_null := false,
    firestore_enabled := false, data_loaded := false,
    auto_save_triggered := false, save_succeeded := false,
    no_unlock_warning := true }

/-- Embedded from src/verify_sync.py lines 51-82: one pass of the log loop.
The `unlockedBy: null` detection is nested inside the unlock-state branch,
so it requires both substrings in the same log line; the unlock warning
clears `no_unlock_warning`. -/
def scanLog (fl : SyncFlags) (log : String) : SyncFlags :=
  { unlock_state_logged :=
      fl.unlock_state_logged || hasSub "🔐 Unlock state:" log,
    unlocked_by_null :=
      fl.unlocked_by_null ||
        (hasSub "🔐 Unlock state:" log && hasSub "unlockedBy: null" log),
    firestore_enabled :=
      fl.firestore_enabled || hasSub "🔥 Firestore sync enabled" log,
    data_loaded :=
      fl.data_loaded || hasSub "✅ Data loaded from" log,
    auto_save_triggered :=
      fl.auto_save_triggered || hasSub "🔄 Auto-saving changes:" log,
    save_succeeded :=
      fl.save_succeeded ||
        (hasSub "✅ Full document save" log || hasSub "✅ Granular update" log),
    no_unlock_warning :=
      fl.no_unlock_warning && !hasSub "⚠️ Not saving: User not unlocked" log }

/-- Embedded from src/verify_sync.py lines 43-119: the pure log-analysis
core of `verify_sync`: fold the flag updates over the captured console
logs and return the conjunction `all_passed` of the seven flags (lines
98-106, also the process exit status, line 119-123).  The browser driving
and printing around it are I/O plumbing and are not modelled. -/
def verify_sync (console_logs : List String) : Bool :=
  ((console_logs.foldl scanLog initSyncFlags).unlock_state_logged &&
   (console_logs.foldl scanLog initSyncFlags).unlocked_by_null &&
   (console_logs.foldl scanLog initSyncFlags).firestore_enabled &&
   (console_logs.foldl scanLog initSyncFlags).data_loaded &&
   (console_logs.foldl scanLog initSyncFlags).auto_save_triggered &&
   (console_logs.foldl scanLog initSyncFlags).save_succeeded &&
   (console_logs.foldl scanLog initSyncFlags).no_unlock_warning)

/-- Embedded from src/tests/uat/timeline_uat.py line 25: the four statuses
accepted by `TimelineUAT.log`. -/
inductive UatStatus where
  | PASS
  | FAIL
  | INFO
  | WARN
deriving DecidableEq, Repr

/-- Embedded from src/tests/uat/timeline_uat.py lines 19-21: the two
counters of `TimelineUAT`. -/
structure UatCounters where
  passed : Nat
  failed : Nat
deriving DecidableEq, Repr

/-- Embedded from src/tests/uat/timeline_uat.py lines 23-32
(`TimelineUAT.log`): only a PASS increments `passed` and only a FAIL
increments `failed`; INFO and WARN leave both counters unchanged. -/
def uatLog (c : UatCounters) (st : UatStatus) : UatCounters :=
  match st with
  | .PASS => { c with passed := c.passed + 1 }
  | .FAIL => { c with failed := c.failed + 1 }
  | _ => c

/-- Embedded from src/tests/uat/timeline_uat.py: the statuses of the
PASS/FAIL/WARN log calls of `test_calculator_deed_date` on its
non-raising path (TC1.1 and TC1.2 always PASS, TC1.3 PASS or WARN
depending on the calculate button, TC1.4 PASS or FAIL depending on the
continue button); suite-header INFO calls are omitted as they never touch
the counters. -/
def test_calculator_deed_date (calcVisible continueVisible : Bool) :
    List UatStatus :=
  [.PASS, .PASS,
   (if calcVisible then .PASS else .WARN),
   (if continueVisible then .PASS else .FAIL)]

/-- Embedded from src/tests/uat/timeline_uat.py (`test_timeline_view`):
TC2.1 always PASS, TC2.2-TC2.4 PASS or WARN. -/
def test_timeline_view (timelineFound nowFound deedFound : Bool) :
    List UatStatus :=
  [.PASS,
   (if timelineFound then .PASS else .WARN),
   (if nowFound then .PASS else .WARN),
   (if deedFound then .PASS else .WARN)]

/-- Embedded from src/tests/uat/timeline_uat.py (`test_participants_table`):
TC3.1 is PASS via the heading or via the Alice fallback, otherwise FAIL
followed by an early return; TC3.2-TC3.4 PASS or WARN. -/
def test_participants_table
    (headingVisible aliceFound activeFound founderFound rowsFound : Bool) :
    List UatStatus :=
  if headingVisible || aliceFound then
    [.PASS,
     (if activeFound then .PASS else .WARN),
     (if founderFound then .PASS else .WARN),
     (if rowsFound then .PASS else .WARN)]
  else
    [.FAIL]

/-- Embedded from src/tests/uat/timeline_uat.py (`test_cash_flow_details`):
TC4.1-TC4.4 are each PASS or WARN; the suite can complete without
recording any PASS or FAIL. -/
def test_cash_flow_details
    (cardsFound txTable lotPurchase csvButton : Bool) : List UatStatus :=
  [(if cardsFound then .PASS else .WARN),
   (if txTable then .PASS else .WARN),
   (if lotPurchase then .PASS else .WARN),
   (if csvButton then .PASS else .WARN)]

/-- Embedded from src/tests/uat/timeline_uat.py (`test_copro_panel`):
TC5.1-TC5.4 are each PASS or WARN. -/
def test_copro_panel
    (coproHeader cashReserve hiddenLots obligations : Bool) : List UatStatus :=
  [(if coproHeader then .PASS else .WARN),
   (if cashReserve then .PASS else .WARN),
   (if hiddenLots then .PASS else .WARN),
   (if obligations then .PASS else .WARN)]

/-- Embedded from src/tests/uat/timeline_uat.py (`test_export_import`):
TC6.1 and TC6.2 are each PASS or FAIL. -/
def test_export_import (exportBtn importBtn : Bool) : List UatStatus :=
  [(if exportBtn then .PASS else .FAIL),
   (if importBtn then .PASS else .FAIL)]

/-- Embedded from src/tests/uat/timeline_uat.py lines 304-310
(`test_console_errors`): the suite only logs a WARN (manual-check notice)
on its non-raising path. -/
def test_console_errors : List UatStatus :=
  [.WARN]

/-- Embedded from src/tests/uat/timeline_uat.py: every suite body runs
inside `try/except Exception`; an exception after `n` of its log calls
truncates the emitted statuses to the first `n` and appends the single
FAIL logged by the handler. -/
def runSuite (raiseAfter : Option Nat) (normal : List UatStatus) :
    List UatStatus :=
  match raiseAfter with
  | none => normal
  | some n => normal.take n ++ [.FAIL]

/-- Environment of one UAT run: the branch outcomes observed on the page
and, per suite, whether (and after how many of its log calls) its body
raised an exception. -/
structure UatEnv where
  raise1 : Option Nat
  calcVisible : Bool
  continueVisible : Bool
  raise2 : Option Nat
  timelineFound : Bool
  nowFound : Bool
  deedFound : Bool
  raise3 : Option Nat
  headingVisible : Bool
  aliceFound : Bool
  activeFound : Bool
  founderFound : Bool
  rowsFound : Bool
  raise4 : Option Nat
  cardsFound : Bool
  txTable : Bool
  lotPurchase : Bool
  csvButton : Bool
  raise5 : Option Nat
  coproHeader : Bool
  cashReserve : Bool
  hiddenLots : Bool
  obligations : Bool
  raise6 : Option Nat
  exportBtn : Bool
  importBtn : Bool
  raise7 : Option Nat
deriving DecidableEq, Repr

/-- Embedded from src/tests/uat/timeline_uat.py lines 312-336
(`TimelineUAT.run_all_tests`): the PASS/FAIL/WARN statuses recorded by the
seven suites, in order, before the summary block. -/
def run_all_tests (e : UatEnv) : List UatStatus :=
  runSuite e.raise1 (test_calculator_deed_date e.calcVisible e.continueVisible) ++
  runSuite e.raise2 (test_timeline_view e.timelineFound e.nowFound e.deedFound) ++
  runSuite e.raise3 (test_participants_table e.headingVisible e.aliceFound
    e.activeFound e.founderFound e.rowsFound) ++
  runSuite e.raise4 (test_cash_flow_details e.cardsFound e.txTable
    e.lotPurchase e.csvButton) ++
  runSuite e.raise5 (test_copro_panel e.coproHeader e.cashReserve
    e.hiddenLots e.obligations) ++
  runSuite e.raise6 (test_export_import e.exportBtn e.importBtn) ++
  runSuite e.raise7 test_console_errors

/-- The counters reaching the summary block of `run_all_tests` (the
divisor of the pass-rate expression is `passed + failed`). -/
def finalCounters (e : UatEnv) : UatCounters :=
  (run_all_tests e).foldl uatLog { passed := 0, failed := 0 }

theorem scanLog_foldl_spec (logs : List String) (fl : SyncFlags) :
    logs.foldl scanLog fl =
      { unlock_state_logged := fl.unlock_state_logged ||
          logs.any (fun l => hasSub "🔐 Unlock state:" l),
        unlocked_by_null := fl.unlocked_by_null ||
          logs.any (fun l =>
            hasSub "🔐 Unlock state:" l && hasSub "unlockedBy: null" l),
        firestore_enabled := fl.firestore_enabled ||
          logs.any (fun l => hasSub "🔥 Firestore sync enabled" l),
        data_loaded := fl.data_loaded ||
          logs.any (fun l => hasSub "✅ Data loaded from" l),
        auto_save_triggered := fl.auto_save_triggered ||
          logs.any (fun l => hasSub "🔄 Auto-saving changes:" l),
        save_succeeded := fl.save_succeeded ||
          logs.any (fun l =>
            hasSub "✅ Full document save" l || hasSub "✅ Granular update" l),
        no_unlock_warning := fl.no_unlock_warning &&
          !(logs.any (fun l => hasSub "⚠️ Not saving: User not unlocked" l)) } := by
  induction logs generalizing fl with
  | nil => simp
  | cons l ls ih =>
    rw [List.foldl_cons, ih]
    simp [scanLog, Bool.or_assoc, Bool.and_assoc, Bool.not_or]

/-- Count of PASS and FAIL statuses in a status list. -/
def countPF (l : List UatStatus) : Nat :=
  l.countP (fun s => s = UatStatus.PASS || s = UatStatus.FAIL)

theorem foldl_uatLog_spec (l : List UatStatus) (c : UatCounters) :
    (l.foldl uatLog c).passed + (l.foldl uatLog c).failed =
      c.passed + c.failed + countPF l := by
  induction l generalizing c with
  | nil => simp [countPF]
  | cons s rest ih =>
    rw [List.foldl_cons, ih]
    cases s <;> simp [uatLog, countPF, List.countP_cons] <;> omega

theorem countPF_append (a b : List UatStatus) :
    countPF (a ++ b) = countPF a + countPF b := by
  simp [countPF, List.countP_append]

theorem runSuite_calculator_pf (r : Option Nat) (a b : Bool) :
    1 ≤ countPF (runSuite r (test_calculator_deed_date a b)) := by
  cases r with
  | none => cases a <;> cases b <;> decide
  | some n =>
    have : countPF [UatStatus.FAIL] = 1 := by decide
    simp [runSuite, countPF_append, this]

/-- C9: verify_sync returns True if and only if all seven checked
conditions hold over the captured console logs — the unlock state was
logged, some unlock-state log shows unlockedBy null, Firestore sync was
enabled, data was loaded, auto-save was triggered, a save succeeded
(full-document or granular), and no log contains the unlock warning — and,
in particular, for every log sequence containing that warning it returns
False. -/
theorem C9_verify_sync_iff (logs : List String) :
    (verify_sync logs = true ↔
      ((∃ l ∈ logs, hasSub "🔐 Unlock state:" l = true) ∧
       (∃ l ∈ logs, hasSub "🔐 Unlock state:" l = true ∧
          hasSub "unlockedBy: null" l = true) ∧
       (∃ l ∈ logs, hasSub "🔥 Firestore sync enabled" l = true) ∧
       (∃ l ∈ logs, hasSub "✅ Data loaded from" l = true) ∧
       (∃ l ∈ logs, hasSub "🔄 Auto-saving changes:" l = true) ∧
       (∃ l ∈ logs, hasSub "✅ Full document save" l = true ∨
          hasSub "✅ Granular update" l = true) ∧
       (∀ l ∈ logs, hasSub "⚠️ Not saving: User not unlocked" l = false))) ∧
    ((∃ l ∈ logs, hasSub "⚠️ Not saving: User not unlocked" l = true) →
      verify_sync logs = false) := by
  have hmain : verify_sync logs = true ↔
      ((∃ l ∈ logs, hasSub "🔐 Unlock state:" l = true) ∧
       (∃ l ∈ logs, hasSub "🔐 Unlock state:" l = true ∧
          hasSub "unlockedBy: null" l = true) ∧
       (∃ l ∈ logs, hasSub "🔥 Firestore sync enabled" l = true) ∧
       (∃ l ∈ logs, hasSub "✅ Data loaded from" l = true) ∧
       (∃ l ∈ logs, hasSub "🔄 Auto-saving changes:" l = true) ∧
       (∃ l ∈ logs, hasSub "✅ Full document save" l = true ∨
          hasSub "✅ Granular update" l = true) ∧
       (∀ l ∈ logs, hasSub "⚠️ Not saving: User not unlocked" l = false)) := by
    unfold verify_sync
    rw [scanLog_foldl_spec]
    simp [initSyncFlags, List.any_eq_true, Bool.not_eq_true', and_assoc]
  refine ⟨hmain, ?_⟩
  intro ⟨l, hl, hwarn⟩ 
  by_contra hcon
  rw [Bool.not_eq_false] at hcon
  have := (hmain.mp hcon).2.2.2.2.2.2 l hl
  rw [hwarn] at this
  simp at this

theorem C9_verify_sync_iff_witness :
    verify_sync ["⚠️ Not saving: User not unlocked"] = false :=
  (C9_verify_sync_iff ["⚠️ Not saving: User not unlocked"]).2
    ⟨"⚠️ Not saving: User not unlocked", by simp, by decide⟩

/-- C10 (amended): the counters passed and failed are incremented only by
log() when the status is PASS or FAIL (INFO and WARN leave them
unchanged), and every execution of run_all_tests records at least one
PASS or FAIL before the summary because the FIRST test suite always logs
TC1.1 as PASS or catches its exception and logs a FAIL — not every suite
does (the console-errors suite can complete with only a WARN) — so the
pass-rate divisor passed + failed is never zero. -/
theorem C10_run_all_tests_records (e : UatEnv) :
    (∀ c : UatCounters,
      uatLog c UatStatus.INFO = c ∧
      uatLog c UatStatus.WARN = c ∧
      (uatLog c UatStatus.PASS).passed = c.passed + 1 ∧
      (uatLog c UatStatus.PASS).failed = c.failed ∧
      (uatLog c UatStatus.FAIL).failed = c.failed + 1 ∧
      (uatLog c UatStatus.FAIL).passed = c.passed) ∧
    1 ≤ (finalCounters e).passed + (finalCounters e).failed := by
  constructor
  · intro c
    refine ⟨rfl, rfl, rfl, rfl, rfl, rfl⟩
  · unfold finalCounters
    rw [foldl_uatLog_spec]
    unfold run_all_tests
    rw [countPF_append, countPF_append, countPF_append, countPF_append,
      countPF_append, countPF_append]
    have := runSuite_calculator_pf e.raise1 e.calcVisible e.continueVisible
    omega

/-- C10 counterexample: the claim asserts that each test suite either logs
a PASS or catches its exception and logs a FAIL, but the console-errors
suite completes without an exception while logging only a WARN — neither a
PASS nor a FAIL. -/
theorem C10_counterexample :
    runSuite none test_console_errors = [UatStatus.WARN] ∧
    UatStatus.PASS ∉ runSuite none test_console_errors ∧
    UatStatus.FAIL ∉ runSuite none test_console_errors := by
  decide

/-- Scenario A formula (spec section 8): reference date 2026-02-01,
indexation 2 percent per period. -/
def scenarioAFormula : PortageFormula :=
  { rateNum := 2, rateDen := 100, referenceDate := { year := 2026, month := 2, day := 1 } }

/-- Scenario A lot: base price 100,000 currency units (10,000,000 cents). -/
def scenarioALot : Lot :=
  { id := 1, basePrice := 10000000, seller := Seller.coOwnershipEntity,
    unitPrice := none }

/-- Scenario A participant: entry date 2028-01-01. -/
def scenarioABuyer : Participant :=
  { name := "Nouvelle Arrivante", entryDate := { year := 2028, month := 1, day := 1 },
    capital := 0, isFounder := false, lotId := 1, chosenSurface := none }

theorem price_base_ok (lot : Lot) (p : Participant) (f : PortageFormula)
    (hdate : Date.le f.referenceDate p.entryDate = true)
    (hsurf : lot.unitPrice = none) :
    price lot p f = .ok
      { participant := p.name, idx := 0, date := p.entryDate,
        price := roundHalfEvenDiv
          (basePriceRaw lot.basePrice f (elapsedPeriods f.referenceDate p.entryDate))
          (f.rateDen ^ elapsedPeriods f.referenceDate p.entryDate),
        elapsed := elapsedPeriods f.referenceDate p.entryDate,
        formulaSnapshot := f } := by
  have hlt : Date.lt p.entryDate f.referenceDate = false :=
    (Date.le_iff_not_lt f.referenceDate p.entryDate).mp hdate
  unfold price
  rw [hlt, hsurf]
  simp

/-- C1 (amended: restricted to lots that are not surface-priced): for every
such lot, participant and formula with entryDate at or after the reference
date, a positive base price and a well-formed rate, price returns
`basePrice * (1 + indexationRate) ^ elapsed` rounded to the minor unit
with round-half-to-even, elapsed being the whole-period count between the
reference date and the entry date; and on Scenario A (reference
2026-02-01, 2 percent per period, entry 2028-01-01, base price 100,000)
the result is exactly 104,040 currency units. -/
theorem C1_price_formula (lot : Lot) (p : Participant) (f : PortageFormula)
    (hdate : Date.le f.referenceDate p.entryDate = true)
    (_hbase : 0 < lot.basePrice)
    (hrd : 0 < f.rateDen)
    (hsurf : lot.unitPrice = none) :
    (∃ tx, price lot p f = .ok tx ∧
      tx.price = roundHalfEvenQ ((lot.basePrice : ℚ) *
        (1 + (f.rateNum : ℚ) / (f.rateDen : ℚ)) ^
          elapsedPeriods f.referenceDate p.entryDate) ∧
      tx.elapsed = elapsedPeriods f.referenceDate p.entryDate) ∧
    (∃ txA, price scenarioALot scenarioABuyer scenarioAFormula = .ok txA ∧
      txA.price = 10404000) := by
  constructor
  · refine ⟨_, price_base_ok lot p f hdate hsurf, ?_, rfl⟩
    have hpow : (0 : ℤ) < f.rateDen ^ elapsedPeriods f.referenceDate p.entryDate :=
      pow_pos hrd _
    rw [roundHalfEvenDiv_eq _ _ hpow,
      priceRaw_cast lot.basePrice f (elapsedPeriods f.referenceDate p.entryDate) hrd]
  · refine ⟨_, price_base_ok scenarioALot scenarioABuyer scenarioAFormula
      (by decide) rfl, ?_⟩
    decide

theorem C1_price_formula_witness :
    ∃ txA, price scenarioALot scenarioABuyer scenarioAFormula = .ok txA ∧
      txA.price = 10404000 :=
  (C1_price_formula scenarioALot scenarioABuyer scenarioAFormula
    (by decide) (by decide) (by decide) rfl).2

/-- Counterexample lot for C1: a surface-priced lot with a positive base
price. -/
def cexSurfLot : Lot :=
  { id := 2, basePrice := 10000, seller := Seller.coOwnershipEntity,
    unitPrice := some 100 }

/-- Counterexample participant for C1: entry at the reference date, chosen
surface 50. -/
def cexSurfBuyer : Participant :=
  { name := "S", entryDate := { year := 2026, month := 2, day := 1 },
    capital := 0, isFounder := false, lotId := 2, chosenSurface := some 50 }

/-- Counterexample formula for C1: zero rate, reference 2026-02-01. -/
def cexSurfFormula : PortageFormula :=
  { rateNum := 0, rateDen := 1, referenceDate := { year := 2026, month := 2, day := 1 } }

/-- C1 counterexample: a surface-priced lot satisfies all the hypotheses
the claim states (entry date at or after the reference date, positive base
price) yet price returns the surface formula `unitPrice * chosenSurface`,
not the claimed `basePrice * (1 + rate) ^ elapsed` value: 5,000 versus
10,000 minor units. -/
theorem C1_counterexample :
    Date.le cexSurfFormula.referenceDate cexSurfBuyer.entryDate = true ∧
    0 < cexSurfLot.basePrice ∧
    0 < cexSurfFormula.rateDen ∧
    ∃ tx, price cexSurfLot cexSurfBuyer cexSurfFormula = .ok tx ∧
      tx.price ≠ roundHalfEvenQ ((cexSurfLot.basePrice : ℚ) *
        (1 + (cexSurfFormula.rateNum : ℚ) / (cexSurfFormula.rateDen : ℚ)) ^
          elapsedPeriods cexSurfFormula.referenceDate cexSurfBuyer.entryDate) := by
  refine ⟨by decide, by decide, by decide, ?_⟩
  refine ⟨{ participant := "S", idx := 0,
              date := { year := 2026, month := 2, day := 1 }, price := 5000,
              elapsed := 0, formulaSnapshot := cexSurfFormula }, rfl, ?_⟩
  have hval : (cexSurfLot.basePrice : ℚ) *
      (1 + (cexSurfFormula.rateNum : ℚ) / (cexSurfFormula.rateDen : ℚ)) ^
        elapsedPeriods cexSurfFormula.referenceDate cexSurfBuyer.entryDate =
      ((10000 : ℤ) : ℚ) := by
    norm_num [cexSurfLot, cexSurfFormula, cexSurfBuyer, elapsedPeriods]
  rw [hval, roundHalfEvenQ_intCast]
  decide

/-- C5: price signals InvalidDateOrderingError exactly when the
participant's entry date precedes the formula's reference date — it does
so then (rather than returning a price), and it raises this error only
then. -/
theorem C5_price_date_error (lot : Lot) (p : Participant) (f : PortageFormula) :
    price lot p f = .error PricingError.invalidDateOrdering ↔
      Date.lt p.entryDate f.referenceDate = true := by
  unfold price
  by_cases h : Date.lt p.entryDate f.referenceDate = true
  · simp [h]
  · rw [Bool.not_eq_true] at h
    rw [h]
    simp only [Bool.false_eq_true, if_false]
    cases lot.unitPrice with
    | none => simp
    | some u =>
      cases p.chosenSurface with
      | none => simp
      | some s =>
        by_cases hs : s ≤ 0
        · simp [hs]
        · simp [hs]

/-- Founder-sale transaction used to witness C4. -/
def cexFounderSale : SaleTransaction where
  lot := { id := 3, basePrice := 1000, seller := Seller.founder "Alice", unitPrice := none }
  proceeds := 500000
  saleDate := { year := 2027, month := 6, day := 1 }

/-- C4: for every founder-sold lot (seller a founder participant, not the
co-ownership entity), requesting a proceeds breakdown signals
NotApplicableError and never returns any ProceedsBreakdown (in particular
never a zero or empty one). -/
theorem C4_founder_sale (sale : SaleTransaction) (ratio : ReserveRate)
    (existing : List Participant) (nm : String)
    (hseller : sale.lot.seller = Seller.founder nm) :
    distribute sale ratio existing = .error DistError.notApplicable ∧
    ∀ b : ProceedsBreakdown, distribute sale ratio existing ≠ .ok b := by
  have hne : ¬ sale.lot.seller = Seller.coOwnershipEntity := by
    rw [hseller]; intro hc; cases hc
  constructor
  · unfold distribute
    rw [if_neg hne]
  · intro b hb
    unfold distribute at hb
    rw [if_neg hne] at hb
    cases hb

theorem C4_founder_sale_witness :
    distribute cexFounderSale { num := 3, den := 10 } [] =
      .error DistError.notApplicable :=
  (C4_founder_sale cexFounderSale { num := 3, den := 10 } [] "Alice" rfl).1

/-- Scenario C sale (spec section 8): first-ever co-op sale, proceeds
10,000 currency units (1,000,000 cents). -/
def scenarioCSale : SaleTransaction where
  lot := { id := 4, basePrice := 1000000, seller := Seller.coOwnershipEntity, unitPrice := none }
  proceeds := 1000000
  saleDate := { year := 2027, month := 1, day := 1 }

/-- C6: for every co-ownership sale with no existing participants,
distribute succeeds and the entire proceeds accrue to the reserve with
redistributed 0; on Scenario C (proceeds 10,000, reserveRatio 0.3) the
full 10,000 goes to the reserve. -/
theorem C6_empty_existing (sale : SaleTransaction) (ratio : ReserveRate)
    (hseller : sale.lot.seller = Seller.coOwnershipEntity) :
    distribute sale ratio [] = .ok
      { total := sale.proceeds, reserve := sale.proceeds,
        redistributedTotal := 0, shares := [] } ∧
    distribute scenarioCSale { num := 3, den := 10 } [] = .ok
      { total := 1000000, reserve := 1000000,
        redistributedTotal := 0, shares := [] } := by
  constructor
  · unfold distribute
    rw [if_pos hseller]
  · rfl

theorem C6_empty_existing_witness :
    distribute scenarioCSale { num := 3, den := 10 } [] = .ok
      { total := 1000000, reserve := 1000000,
        redistributedTotal := 0, shares := [] } :=
  (C6_empty_existing scenarioCSale { num := 3, den := 10 } rfl).2

/-- Scenario B existing participant with capital 20,000. -/
def pB1 : Participant where
  name := "Petit"
  entryDate := { year := 2026, month := 3, day := 1 }
  capital := 20000
  isFounder := true
  lotId := 1
  chosenSurface := none

/-- Scenario B existing participant with capital 80,000. -/
def pB2 : Participant where
  name := "Grand"
  entryDate := { year := 2026, month := 3, day := 2 }
  capital := 80000
  isFounder := true
  lotId := 1
  chosenSurface := none

/-- Scenario B sale (spec section 8): co-op lot sale, proceeds 50,000
currency units (5,000,000 cents). -/
def scenarioBSale : SaleTransaction where
  lot := { id := 5, basePrice := 5000000, seller := Seller.coOwnershipEntity, unitPrice := none }
  proceeds := 5000000
  saleDate := { year := 2027, month := 6, day := 1 }

/-- Scenario B reserve ratio 0.3. -/
def scenarioBRate : ReserveRate where
  num := 3
  den := 10

/-- Scenario B expected breakdown: reserve 15,000, redistributed 35,000
split 28,000 / 7,000 (largest share first). -/
def scenarioBBreakdown : ProceedsBreakdown where
  total := 5000000
  reserve := 1500000
  redistributedTotal := 3500000
  shares := [{ participant := pB2, amount := 2800000 },
             { participant := pB1, amount := 700000 }]

/-- C2: every ProceedsBreakdown produced by distribute for a co-ownership
sale satisfies reserve + redistributedTotal = total exactly, and the
per-participant share amounts sum exactly to redistributedTotal (the
rounding remainder being assigned deterministically by the
largest-share-first rule built into mkShares). -/
theorem C2_breakdown_sums (sale : SaleTransaction) (ratio : ReserveRate)
    (existing : List Participant) (b : ProceedsBreakdown)
    (h : distribute sale ratio existing = .ok b) :
    b.reserve + b.redistributedTotal = b.total ∧
    (b.shares.map (fun e => e.amount)).sum = b.redistributedTotal := by
  unfold distribute at h
  by_cases hs : sale.lot.seller = Seller.coOwnershipEntity
  · rw [if_pos hs] at h
    cases existing with
    | nil =>
      injection h with h2
      subst h2
      simp
    | cons p rest =>
      by_cases hc : ((p :: rest).map (fun q => q.capital)).sum ≤ 0
      · rw [if_pos hc] at h
        cases h
      · rw [if_neg hc] at h
        injection h with h2
        subst h2
        have hC : 0 < ((p :: rest).map (fun q => q.capital)).sum := by omega
        constructor
        · simp
        · exact mkShares_sum _ _ _ hC rfl (by simp)
  · rw [if_neg hs] at h
    cases h

theorem C2_breakdown_sums_witness :
    scenarioBBreakdown.reserve + scenarioBBreakdown.redistributedTotal =
      scenarioBBreakdown.total ∧
    (scenarioBBreakdown.shares.map (fun e => e.amount)).sum =
      scenarioBBreakdown.redistributedTotal :=
  C2_breakdown_sums scenarioBSale scenarioBRate [pB1, pB2] scenarioBBreakdown rfl

/-- C3: for every co-ownership sale with reserveRatio in [0, 1], distribute
computes the reserve as total * reserveRatio rounded down to the minor
unit, the redistributed amount as the exact complement total - reserve
(never independently rounded), and each existing participant's share
proportional to their capital (their floored proportional share, plus at
most one minor unit of remainder); on Scenario B (proceeds 50,000,
reserveRatio 0.3, capitals 20,000 and 80,000) the reserve is 15,000 and
the redistributed 35,000 splits 7,000 / 28,000. -/
theorem C3_distribute_reserve (sale : SaleTransaction) (ratio : ReserveRate)
    (existing : List Participant) (b : ProceedsBreakdown)
    (hs : sale.lot.seller = Seller.coOwnershipEntity)
    (_h0 : 0 ≤ ratio.num) (_h1 : ratio.num ≤ ratio.den)
    (hden : 0 < ratio.den)
    (hne : existing ≠ [])
    (h : distribute sale ratio existing = .ok b) :
    b.reserve = ⌊(sale.proceeds : ℚ) * ((ratio.num : ℚ) / (ratio.den : ℚ))⌋ ∧
    b.redistributedTotal = sale.proceeds - b.reserve ∧
    (∀ e ∈ b.shares,
      b.redistributedTotal * e.participant.capital /
          ((existing.map (fun p => p.capital)).sum) ≤ e.amount ∧
      e.amount ≤ b.redistributedTotal * e.participant.capital /
          ((existing.map (fun p => p.capital)).sum) + 1 ∧
      e.participant ∈ existing) ∧
    distribute scenarioBSale scenarioBRate [pB1, pB2] = .ok scenarioBBreakdown := by
  have hfloor : sale.proceeds * ratio.num / ratio.den =
      ⌊(sale.proceeds : ℚ) * ((ratio.num : ℚ) / (ratio.den : ℚ))⌋ := by
    rw [mul_div_assoc']
    rw [show ((sale.proceeds : ℚ) * (ratio.num : ℚ)) =
      ((sale.proceeds * ratio.num : ℤ) : ℚ) by push_cast; ring]
    rw [floorQ_intCast_div _ _ hden]
  unfold distribute at h
  rw [if_pos hs] at h
  cases existing with
  | nil => exact absurd rfl hne
  | cons p rest =>
    by_cases hc : ((p :: rest).map (fun q => q.capital)).sum ≤ 0
    · rw [if_pos hc] at h
      cases h
    · rw [if_neg hc] at h
      injection h with h2
      subst h2
      refine ⟨hfloor, by simp, ?_, rfl⟩
      intro e he
      simp only at he ⊢
      obtain ⟨pb, hpb, hep, ham⟩ := assignExtras_mem he
      obtain ⟨p0, hp0, rfl⟩ := List.mem_map.mp hpb
      have hmem : p0 ∈ p :: rest := sortShares_mem hp0
      dsimp only at hep ham
      rw [hep]
      rcases ham with ham | ham <;> rw [ham]
      · exact ⟨le_refl _, by omega, hmem⟩
      · exact ⟨by omega, by omega, hmem⟩

theorem C3_distribute_reserve_witness :
    distribute scenarioBSale scenarioBRate [pB1, pB2] = .ok scenarioBBreakdown :=
  (C3_distribute_reserve scenarioBSale scenarioBRate [pB1, pB2]
    scenarioBBreakdown rfl (by decide) (by decide) (by decide)
    (by decide) rfl).2.2.2

/-- C7: recomputing the timeline over an unchanged input set is idempotent:
committing the same inputs a second time — starting from the state the
first commit produced — yields a byte-identical TimelineSnapshot sequence
(the recompute pass depends only on the committed inputs, never on the
prior engine state). -/
theorem C7_commit_idempotent (st st1 st2 : EngineState) (inp : Inputs)
    (h1 : commitInputs st inp = .ok st1)
    (h2 : commitInputs st1 inp = .ok st2) :
    st2.snapshots = st1.snapshots ∧ st2 = st1 := by
  unfold commitInputs at h1 h2
  cases hm : mkLedger inp.lots inp.formula inp.participants with
  | error e =>
    rw [hm] at h1
    cases h1
  | ok txs =>
    rw [hm] at h1 h2
    injection h1 with h1e
    injection h2 with h2e
    subst h1e
    subst h2e
    exact ⟨rfl, rfl⟩

/-- Concrete input set used to witness C7: one participant, one lot, zero
rate. -/
def cInpW : Inputs where
  participants := [{ name := "Alice", entryDate := { year := 2026, month := 2, day := 1 },
                     capital := 100, isFounder := true, lotId := 1, chosenSurface := none }]
  lots := [{ id := 1, basePrice := 100, seller := Seller.coOwnershipEntity, unitPrice := none }]
  formula := { rateNum := 0, rateDen := 1,
               referenceDate := { year := 2026, month := 2, day := 1 } }
  reserveRatio := { num := 3, den := 10 }

/-- Initial engine state used to witness C7. -/
def cSt0W : EngineState where
  inputs := cInpW
  snapshots := []

theorem C7_commit_idempotent_witness :
    ∃ s1 s2, commitInputs cSt0W cInpW = .ok s1 ∧
      commitInputs s1 cInpW = .ok s2 ∧ s2.snapshots = s1.snapshots :=
  ⟨_, _, rfl, rfl,
    (C7_commit_idempotent cSt0W _ _ cInpW rfl rfl).1⟩

theorem keyLE_refl (a : PricedTransaction) : keyLE a a = true := by
  simp [keyLE, Date.lt_irrefl]

theorem price_fields {lot : Lot} {p : Participant} {f : PortageFormula}
    {t : PricedTransaction} (h : price lot p f = .ok t) :
    t.idx = 0 ∧ t.participant = p.name ∧ t.date = p.entryDate := by
  unfold price at h
  by_cases hd : Date.lt p.entryDate f.referenceDate = true
  · rw [if_pos hd] at h
    cases h
  · rw [Bool.not_eq_true] at hd
    simp only [hd, Bool.false_eq_true, if_false] at h
    cases hu : lot.unitPrice with
    | none =>
      simp only [hu] at h
      injection h with h2
      subst h2
      exact ⟨rfl, rfl, rfl⟩
    | some u =>
      simp only [hu] at h
      cases hcs : p.chosenSurface with
      | none =>
        simp only [hcs] at h
        cases h
      | some s =>
        simp only [hcs] at h
        by_cases hs : s ≤ 0
        · rw [if_pos hs] at h
          cases h
        · rw [if_neg hs] at h
          injection h with h2
          subst h2
          exact ⟨rfl, rfl, rfl⟩

theorem priceAt_fields {lots : List Lot} {f : PortageFormula} {i : Nat}
    {p : Participant} {t : PricedTransaction}
    (h : priceAt lots f i p = .ok t) :
    t.idx = i ∧ t.participant = p.name ∧ t.date = p.entryDate := by
  unfold priceAt at h
  split at h
  · cases h
  · split at h
    · cases h
    · rename_i t0 hp
      injection h with h2
      subst h2
      obtain ⟨_, hn, hdt⟩ := price_fields hp
      exact ⟨rfl, hn, hdt⟩

theorem mkTxsFrom_length (lots : List Lot) (f : PortageFormula)
    (ps : List Participant) :
    ∀ (i : Nat) (txs : List PricedTransaction),
      mkTxsFrom lots f i ps = .ok txs → txs.length = ps.length := by
  induction ps with
  | nil =>
    intro i txs h
    injection h with h2
    subst h2
    rfl
  | cons p rest ih =>
    intro i txs h
    unfold mkTxsFrom at h
    cases hp : priceAt lots f i p with
    | error e =>
      rw [hp] at h
      cases h
    | ok t =>
      rw [hp] at h
      cases hr : mkTxsFrom lots f (i + 1) rest with
      | error e =>
        rw [hr] at h
        cases h
      | ok ts =>
        rw [hr] at h
        injection h with h2
        subst h2
        simp [ih (i + 1) ts hr]

theorem mkTxsFrom_get (lots : List Lot) (f : PortageFormula)
    (ps : List Participant) :
    ∀ (i : Nat) (txs : List PricedTransaction),
      mkTxsFrom lots f i ps = .ok txs →
      ∀ (j : Nat) (hj : j < ps.length) (hj2 : j < txs.length),
        priceAt lots f (i + j) (ps.get ⟨j, hj⟩) = .ok (txs.get ⟨j, hj2⟩) := by
  induction ps with
  | nil =>
    intro i txs _ j hj
    exact absurd hj (by simp)
  | cons p rest ih =>
    intro i txs h j hj hj2
    unfold mkTxsFrom at h
    cases hp : priceAt lots f i p with
    | error e =>
      rw [hp] at h
      cases h
    | ok t =>
      rw [hp] at h
      cases hr : mkTxsFrom lots f (i + 1) rest with
      | error e =>
        rw [hr] at h
        cases h
      | ok ts =>
        rw [hr] at h
        injection h with h2
        subst h2
        cases j with
        | zero =>
          simpa using hp
        | succ j =>
          have := ih (i + 1) ts hr j (by simpa using hj) (by simpa using hj2)
          rw [show i + (j + 1) = (i + 1) + j by omega]
          simpa using this

theorem filter_eq_of_eq_except {α : Type} (p : α → Bool) :
    ∀ (l1 l2 : List α) (k : Nat), l1.length = l2.length →
      (∀ (i : Nat) (h1 : i < l1.length) (h2 : i < l2.length), i ≠ k →
        l1.get ⟨i, h1⟩ = l2.get ⟨i, h2⟩) →
      (∀ (h1 : k < l1.length), p (l1.get ⟨k, h1⟩) = false) →
      (∀ (h2 : k < l2.length), p (l2.get ⟨k, h2⟩) = false) →
      l1.filter p = l2.filter p := by
  intro l1
  induction l1 with
  | nil =>
    intro l2 k hlen _ _ _
    cases l2 with
    | nil => rfl
    | cons b t2 => simp at hlen
  | cons a t1 ih =>
    intro l2 k hlen heq hk1 hk2
    cases l2 with
    | nil => simp at hlen
    | cons b t2 =>
      cases k with
      | zero =>
        have hpa : p a = false := by simpa using hk1 (by simp)
        have hpb : p b = false := by simpa using hk2 (by simp)
        have ht : t1 = t2 := by
          apply List.ext_get (by simpa using hlen)
          intro n h1 h2
          simpa using heq (n + 1) (by simpa using h1) (by simpa using h2)
            (by omega)
        rw [List.filter_cons, List.filter_cons, hpa, hpb]
        simp only [Bool.false_eq_true, if_false]
        rw [ht]
      | succ k =>
        have hab : a = b := by
          simpa using heq 0 (by simp) (by simp) (by omega)
        have htail : t1.filter p = t2.filter p := by
          apply ih t2 k (by simpa using hlen)
          · intro i h1 h2 hik
            simpa using heq (i + 1) (by simpa using h1) (by simpa using h2)
              (by omega)
          · intro h1
            simpa using hk1 (by simpa using h1)
          · intro h2
            simpa using hk2 (by simpa using h2)
        rw [List.filter_cons, List.filter_cons, hab, htail]

theorem names_get_inj (ps : List Participant)
    (hnodup : (ps.map (fun p => p.name)).Nodup)
    (i j : Nat) (hi : i < ps.length) (hj : j < ps.length)
    (hname : (ps.get ⟨i, hi⟩).name = (ps.get ⟨j, hj⟩).name) : i = j := by
  have hmi : (ps.map (fun p => p.name)).get ⟨i, by simpa using hi⟩ =
      (ps.map (fun p => p.name)).get ⟨j, by simpa using hj⟩ := by
    simpa using hname
  have := (List.Nodup.get_inj_iff hnodup).mp hmi
  simpa using this

/-- C8 (amended): in a committed scenario, changing exactly one
participant's entry date (1) leaves every other participant's
PricedTransaction unchanged — in particular every transaction with an
earlier date, (2) changes that participant's PricedTransaction, (3) leaves
every TimelineSnapshot unchanged whose transaction is positioned strictly
before both the old and the new position of the changed transaction in the
stable (date, insertion-order) ordering, and (4) changes every
TimelineSnapshot whose transaction is positioned at or after either of
those two positions.  The claim's boundary "every TimelineSnapshot dated
from that entry date forward" is corrected to the key-based boundary of
(3) and (4): a same-date snapshot whose transaction precedes the changed
one in insertion order can be unchanged. -/
theorem C8_reactive_frame
    (ps : List Participant) (lots : List Lot) (f : PortageFormula)
    (k : Nat) (hk : k < ps.length) (d2 : Date)
    (hneq : d2 ≠ (ps.get ⟨k, hk⟩).entryDate)
    (hnodup : (ps.map (fun p => p.name)).Nodup)
    (txs1 txs2 : List PricedTransaction)
    (h1 : mkLedger lots f ps = .ok txs1)
    (h2 : mkLedger lots f
      (ps.set k { ps.get ⟨k, hk⟩ with entryDate := d2 }) = .ok txs2) :
    (∀ (j : Nat) (hj1 : j < txs1.length) (hj2 : j < txs2.length), j ≠ k →
      txs1.get ⟨j, hj1⟩ = txs2.get ⟨j, hj2⟩) ∧
    (∀ (hk1 : k < txs1.length) (hk2 : k < txs2.length),
      txs1.get ⟨k, hk1⟩ ≠ txs2.get ⟨k, hk2⟩) ∧
    (∀ (j : Nat) (hj1 : j < txs1.length) (hj2 : j < txs2.length)
      (hk1 : k < txs1.length) (hk2 : k < txs2.length),
      keyLE (txs1.get ⟨k, hk1⟩) (txs1.get ⟨j, hj1⟩) = false →
      keyLE (txs2.get ⟨k, hk2⟩) (txs2.get ⟨j, hj2⟩) = false →
      snapshotFor txs1 (txs1.get ⟨j, hj1⟩) =
        snapshotFor txs2 (txs2.get ⟨j, hj2⟩)) ∧
    (∀ (j : Nat) (hj1 : j < txs1.length) (hj2 : j < txs2.length)
      (hk1 : k < txs1.length) (hk2 : k < txs2.length),
      (keyLE (txs1.get ⟨k, hk1⟩) (txs1.get ⟨j, hj1⟩) = true ∨
       keyLE (txs2.get ⟨k, hk2⟩) (txs2.get ⟨j, hj2⟩) = true) →
      snapshotFor txs1 (txs1.get ⟨j, hj1⟩) ≠
        snapshotFor txs2 (txs2.get ⟨j, hj2⟩)) := by
  have hlen1 : txs1.length = ps.length := mkTxsFrom_length lots f ps 0 txs1 h1
  have hlenset : (ps.set k { ps.get ⟨k, hk⟩ with entryDate := d2 }).length =
      ps.length := by simp
  have hlen2 : txs2.length = ps.length := by
    rw [mkTxsFrom_length lots f _ 0 txs2 h2]
    exact hlenset
  have hget1 : ∀ (j : Nat) (hj : j < ps.length) (hj2 : j < txs1.length),
      priceAt lots f j (ps.get ⟨j, hj⟩) = .ok (txs1.get ⟨j, hj2⟩) := by
    intro j hj hj2
    simpa using mkTxsFrom_get lots f ps 0 txs1 h1 j hj hj2
  have hget2 : ∀ (j : Nat)
      (hj : j < (ps.set k { ps.get ⟨k, hk⟩ with entryDate := d2 }).length)
      (hj2 : j < txs2.length),
      priceAt lots f j
        ((ps.set k { ps.get ⟨k, hk⟩ with entryDate := d2 }).get ⟨j, hj⟩) =
        .ok (txs2.get ⟨j, hj2⟩) := by
    intro j hj hj2
    simpa using mkTxsFrom_get lots f _ 0 txs2 h2 j hj hj2
  have hnames : ∀ (i : Nat)
      (hi' : i < (ps.set k { ps.get ⟨k, hk⟩ with entryDate := d2 }).length)
      (hi : i < ps.length),
      ((ps.set k { ps.get ⟨k, hk⟩ with entryDate := d2 }).get ⟨i, hi'⟩).name =
        (ps.get ⟨i, hi⟩).name := by
    intro i hi' hi
    by_cases hik : i = k
    · subst hik
      simp
    · simp [List.get_eq_getElem, List.getElem_set_ne (Ne.symm hik)]
  have part1 : ∀ (j : Nat) (hj1 : j < txs1.length) (hj2 : j < txs2.length),
      j ≠ k → txs1.get ⟨j, hj1⟩ = txs2.get ⟨j, hj2⟩ := by
    intro j hj1 hj2 hjk
    have hjps : j < ps.length := hlen1 ▸ hj1
    have hjps' : j < (ps.set k { ps.get ⟨k, hk⟩ with entryDate := d2 }).length := by
      rw [hlenset]
      exact hjps
    have e1 := hget1 j hjps hj1
    have e2 := hget2 j hjps' hj2
    have hsame : (ps.set k { ps.get ⟨k, hk⟩ with entryDate := d2 }).get
        ⟨j, hjps'⟩ = ps.get ⟨j, hjps⟩ := by
      simp [List.get_eq_getElem, List.getElem_set_ne (Ne.symm hjk)]
    rw [hsame] at e2
    have := e1.symm.trans e2
    injection this
  have hkps' : k < (ps.set k { ps.get ⟨k, hk⟩ with entryDate := d2 }).length := by
    rw [hlenset]
    exact hk
  have hgetk' : (ps.set k { ps.get ⟨k, hk⟩ with entryDate := d2 }).get
      ⟨k, hkps'⟩ = { ps.get ⟨k, hk⟩ with entryDate := d2 } := by
    simp
  have ht1k_date : ∀ (hk1 : k < txs1.length),
      (txs1.get ⟨k, hk1⟩).date = (ps.get ⟨k, hk⟩).entryDate := by
    intro hk1
    exact (priceAt_fields (hget1 k hk hk1)).2.2
  have ht2k_date : ∀ (hk2 : k < txs2.length),
      (txs2.get ⟨k, hk2⟩).date = d2 := by
    intro hk2
    have := (priceAt_fields (hget2 k hkps' hk2)).2.2
    rw [hgetk'] at this
    exact this
  have ht1k_name : ∀ (hk1 : k < txs1.length),
      (txs1.get ⟨k, hk1⟩).participant = (ps.get ⟨k, hk⟩).name := by
    intro hk1
    exact (priceAt_fields (hget1 k hk hk1)).2.1
  have ht2k_name : ∀ (hk2 : k < txs2.length),
      (txs2.get ⟨k, hk2⟩).participant = (ps.get ⟨k, hk⟩).name := by
    intro hk2
    have := (priceAt_fields (hget2 k hkps' hk2)).2.1
    rw [hgetk'] at this
    exact this
  have part2 : ∀ (hk1 : k < txs1.length) (hk2 : k < txs2.length),
      txs1.get ⟨k, hk1⟩ ≠ txs2.get ⟨k, hk2⟩ := by
    intro hk1 hk2 heq
    have hd1 := ht1k_date hk1
    have hd2 := ht2k_date hk2
    rw [heq, hd2] at hd1
    exact hneq hd1
  have huniq1 : ∀ (hk1 : k < txs1.length), ∀ u ∈ txs1,
      u.participant = (ps.get ⟨k, hk⟩).name → u = txs1.get ⟨k, hk1⟩ := by
    intro hk1 u hu hname
    obtain ⟨⟨i, hi⟩, hgi⟩ := List.mem_iff_get.mp hu
    have hips : i < ps.length := hlen1 ▸ hi
    have hfields := priceAt_fields (hget1 i hips hi)
    have hn : (ps.get ⟨i, hips⟩).name = (ps.get ⟨k, hk⟩).name := by
      rw [← hfields.2.1, hgi, hname]
    have hik : i = k := names_get_inj ps hnodup i k hips hk hn
    subst hik
    rw [← hgi]
  have huniq2 : ∀ (hk2 : k < txs2.length), ∀ u ∈ txs2,
      u.participant = (ps.get ⟨k, hk⟩).name → u = txs2.get ⟨k, hk2⟩ := by
    intro hk2 u hu hname
    obtain ⟨⟨i, hi⟩, hgi⟩ := List.mem_iff_get.mp hu
    have hips' : i < (ps.set k { ps.get ⟨k, hk⟩ with entryDate := d2 }).length := by
      rw [hlenset]
      exact hlen2 ▸ hi
    have hips : i < ps.length := hlen2 ▸ hi
    have hfields := priceAt_fields (hget2 i hips' hi)
    have hn : (ps.get ⟨i, hips⟩).name = (ps.get ⟨k, hk⟩).name := by
      rw [← hnames i hips' hips, ← hfields.2.1, hgi, hname]
    have hik : i = k := names_get_inj ps hnodup i k hips hk hn
    subst hik
    rw [← hgi]
  have part3 : ∀ (j : Nat) (hj1 : j < txs1.length) (hj2 : j < txs2.length)
      (hk1 : k < txs1.length) (hk2 : k < txs2.length),
      keyLE (txs1.get ⟨k, hk1⟩) (txs1.get ⟨j, hj1⟩) = false →
      keyLE (txs2.get ⟨k, hk2⟩) (txs2.get ⟨j, hj2⟩) = false →
      snapshotFor txs1 (txs1.get ⟨j, hj1⟩) =
        snapshotFor txs2 (txs2.get ⟨j, hj2⟩) := by
    intro j hj1 hj2 hk1 hk2 hc1 hc2
    by_cases hjk : j = k
    · subst hjk
      rw [keyLE_refl] at hc1
      simp at hc1
    · have hjeq := part1 j hj1 hj2 hjk
      rw [← hjeq] at hc2 ⊢
      have hfil : txs1.filter (fun u => keyLE u (txs1.get ⟨j, hj1⟩)) =
          txs2.filter (fun u => keyLE u (txs1.get ⟨j, hj1⟩)) := by
        apply filter_eq_of_eq_except _ txs1 txs2 k (hlen1.trans hlen2.symm)
        · intro i h1i h2i hik
          exact part1 i h1i h2i hik
        · intro hk1b
          exact hc1
        · intro hk2b
          exact hc2
      unfold snapshotFor
      rw [hfil]
  have part4 : ∀ (j : Nat) (hj1 : j < txs1.length) (hj2 : j < txs2.length)
      (hk1 : k < txs1.length) (hk2 : k < txs2.length),
      (keyLE (txs1.get ⟨k, hk1⟩) (txs1.get ⟨j, hj1⟩) = true ∨
       keyLE (txs2.get ⟨k, hk2⟩) (txs2.get ⟨j, hj2⟩) = true) →
      snapshotFor txs1 (txs1.get ⟨j, hj1⟩) ≠
        snapshotFor txs2 (txs2.get ⟨j, hj2⟩) := by
    intro j hj1 hj2 hk1 hk2 hdisj heq
    by_cases hjk : j = k
    · subst hjk
      have hdates := congrArg TimelineSnapshot.date heq
      simp only [snapshotFor] at hdates
      rw [ht1k_date hj1, ht2k_date hj2] at hdates
      exact hneq hdates.symm
    · have hcap : txs1.filter (fun u => keyLE u (txs1.get ⟨j, hj1⟩)) =
          txs2.filter (fun u => keyLE u (txs2.get ⟨j, hj2⟩)) := by
        have := congrArg TimelineSnapshot.capTable heq
        simpa only [snapshotFor] using this
      cases hc1v : keyLE (txs1.get ⟨k, hk1⟩) (txs1.get ⟨j, hj1⟩) with
      | true =>
        have hmem1 : txs1.get ⟨k, hk1⟩ ∈
            txs1.filter (fun u => keyLE u (txs1.get ⟨j, hj1⟩)) :=
          List.mem_filter.mpr ⟨List.get_mem txs1 k hk1, hc1v⟩
        rw [hcap] at hmem1
        have hmem1b := (List.mem_filter.mp hmem1).1
        have := huniq2 hk2 _ hmem1b (ht1k_name hk1)
        have hd1 := ht1k_date hk1
        rw [this, ht2k_date hk2] at hd1
        exact hneq hd1
      | false =>
        have hc2v : keyLE (txs2.get ⟨k, hk2⟩) (txs2.get ⟨j, hj2⟩) = true := by
          rcases hdisj with hd | hd
          · rw [hc1v] at hd
            cases hd
          · exact hd
        have hmem2 : txs2.get ⟨k, hk2⟩ ∈
            txs2.filter (fun u => keyLE u (txs2.get ⟨j, hj2⟩)) :=
          List.mem_filter.mpr ⟨List.get_mem txs2 k hk2, hc2v⟩
        rw [← hcap] at hmem2
        have hmem2b := (List.mem_filter.mp hmem2).1
        have := huniq1 hk1 _ hmem2b (ht2k_name hk2)
        have hd2 := ht2k_date hk2
        rw [this, ht1k_date hk1] at hd2
        exact hneq hd2.symm
  exact ⟨part1, part2, part3, part4⟩

/-- Concrete formula for the C8 scenarios: zero rate, reference
2026-01-01. -/
def cFW8 : PortageFormula where
  rateNum := 0
  rateDen := 1
  referenceDate := { year := 2026, month := 1, day := 1 }

/-- Concrete lot for the C8 scenarios. -/
def cLotW8 : Lot where
  id := 1
  basePrice := 100
  seller := Seller.coOwnershipEntity
  unitPrice := none

/-- C8 scenario participant A, entry 2027-01-01. -/
def cPAW8 : Participant where
  name := "A"
  entryDate := { year := 2027, month := 1, day := 1 }
  capital := 100
  isFounder := true
  lotId := 1
  chosenSurface := none

/-- C8 witness participant B, entry 2027-06-01 (later moved to
2028-01-01). -/
def cPBW8 : Participant where
  name := "B"
  entryDate := { year := 2027, month := 6, day := 1 }
  capital := 200
  isFounder := false
  lotId := 1
  chosenSurface := none

/-- Priced transaction of participant A in the C8 scenarios. -/
def cTxA8 : PricedTransaction where
  participant := "A"
  idx := 0
  date := { year := 2027, month := 1, day := 1 }
  price := 100
  elapsed := 1
  formulaSnapshot := cFW8

/-- Priced transaction of the C8 witness participant B before the change. -/
def cTxB8a : PricedTransaction where
  participant := "B"
  idx := 1
  date := { year := 2027, month := 6, day := 1 }
  price := 100
  elapsed := 1
  formulaSnapshot := cFW8

/-- Priced transaction of the C8 witness participant B after the change. -/
def cTxB8b : PricedTransaction where
  participant := "B"
  idx := 1
  date := { year := 2028, month := 1, day := 1 }
  price := 100
  elapsed := 2
  formulaSnapshot := cFW8

theorem C8_reactive_frame_witness :
    mkLedger [cLotW8] cFW8 [cPAW8, cPBW8] = .ok [cTxA8, cTxB8a] ∧
    mkLedger [cLotW8] cFW8 ([cPAW8, cPBW8].set 1
      { [cPAW8, cPBW8].get ⟨1, by decide⟩ with
        entryDate := { year := 2028, month := 1, day := 1 } }) =
      .ok [cTxA8, cTxB8b] ∧
    [cTxA8, cTxB8a].get ⟨1, by decide⟩ ≠ [cTxA8, cTxB8b].get ⟨1, by decide⟩ := by
  have h1 : mkLedger [cLotW8] cFW8 [cPAW8, cPBW8] = .ok [cTxA8, cTxB8a] := rfl
  have h2 : mkLedger [cLotW8] cFW8 ([cPAW8, cPBW8].set 1
      { [cPAW8, cPBW8].get ⟨1, by decide⟩ with
        entryDate := { year := 2028, month := 1, day := 1 } }) =
      .ok [cTxA8, cTxB8b] := rfl
  exact ⟨h1, h2,
    (C8_reactive_frame [cPAW8, cPBW8] [cLotW8] cFW8 1 (by decide)
      { year := 2028, month := 1, day := 1 } (by decide) (by decide)
      [cTxA8, cTxB8a] [cTxA8, cTxB8b] h1 h2).2.1 (by decide) (by decide)⟩

/-- C8 counterexample participant B, entry 2028-01-01 (moved to
2027-01-01, the same date as participant A's but with a later insertion
index). -/
def cexPBR : Participant where
  name := "B"
  entryDate := { year := 2028, month := 1, day := 1 }
  capital := 200
  isFounder := false
  lotId := 1
  chosenSurface := none

/-- Priced transaction of the C8 counterexample participant B before the
change. -/
def cexTxB1R : PricedTransaction where
  participant := "B"
  idx := 1
  date := { year := 2028, month := 1, day := 1 }
  price := 100
  elapsed := 2
  formulaSnapshot := cFW8

/-- Priced transaction of the C8 counterexample participant B after the
change. -/
def cexTxB2R : PricedTransaction where
  participant := "B"
  idx := 1
  date := { year := 2027, month := 1, day := 1 }
  price := 100
  elapsed := 1
  formulaSnapshot := cFW8

/-- C8 counterexample: participant B's entry date moves from 2028-01-01 to
2027-01-01 — the same date as participant A's transaction but with a later
insertion index.  Participant A's TimelineSnapshot is dated 2027-01-01,
i.e. at (hence "from ... forward" of) the changed entry date, yet it is
byte-identical before and after the change, falsifying the claim that
every TimelineSnapshot dated from that entry date forward changes. -/
theorem C8_counterexample :
    mkLedger [cLotW8] cFW8 [cPAW8, cexPBR] = .ok [cTxA8, cexTxB1R] ∧
    mkLedger [cLotW8] cFW8 ([cPAW8, cexPBR].set 1
      { [cPAW8, cexPBR].get ⟨1, by decide⟩ with
        entryDate := { year := 2027, month := 1, day := 1 } }) =
      .ok [cTxA8, cexTxB2R] ∧
    ({ year := 2027, month := 1, day := 1 } : Date) ≠ cexPBR.entryDate ∧
    Date.le { year := 2027, month := 1, day := 1 } cTxA8.date = true ∧
    snapshotFor [cTxA8, cexTxB1R] cTxA8 =
      snapshotFor [cTxA8, cexTxB2R] cTxA8 := by
  have h1 : mkLedger [cLotW8] cFW8 [cPAW8, cexPBR] = .ok [cTxA8, cexTxB1R] := rfl
  have h2 : mkLedger [cLotW8] cFW8 ([cPAW8, cexPBR].set 1
      { [cPAW8, cexPBR].get ⟨1, by decide⟩ with
        entryDate := { year := 2027, month := 1, day := 1 } }) =
      .ok [cTxA8, cexTxB2R] := rfl
  exact ⟨h1, h2, by decide, by decide, rfl⟩
